import Mathlib

/-!
Verification of `ocr_to_excel.py`, a fixed-layout OCR extraction pipeline:
PDF pages are rasterized, each configured field's pixel rectangle is
cropped, thresholded to black/white, sent to an OCR engine, the per-page
results are aggregated into one record per page, and the records are
written to a spreadsheet either generically or at configured cell anchors.

The shallow embedding below mirrors the Python source function by
function.  External services are parameters: the rasterizer is a function
from a path to a list of page images, the OCR engine is a function from an
image, a configuration string and a language tag to the recognized text.
Images are single-channel (grayscale) pixel grids, `List (List Nat)`,
with brightness 0..255; the `convert("L")` step of the source is the
identity on such grids.  Python dictionaries are association lists with
insertion-order-preserving overwrite, matching dict semantics.  Library
behaviour that the source relies on is embedded faithfully:

* `PIL.Image.crop` raises `ValueError` when `right < left` or
  `bottom < top`, and otherwise zero-fills (black) any part of the
  rectangle that lies outside the source image — it never rejects an
  out-of-bounds rectangle;
* `openpyxl.utils.column_index_from_string` accepts only column names of
  one to three letters (the cache `A`..`ZZZ`), case-insensitively;
* `openpyxl` `Worksheet.cell` raises `ValueError` when the requested row
  or column is smaller than 1, and leaves the cell untouched when the
  value passed is `None`.

Uncaught Python exceptions are modelled with `Except`.
-/

set_option autoImplicit false

deriving instance DecidableEq for Except

namespace OcrToExcel

/-- A Python value as it occurs in this program: page numbers are `int`,
OCR results are `str`, and `None` can flow into `Worksheet.cell`. -/
inductive PyVal where
  | int (n : Int)
  | str (s : String)
  | pynone
deriving DecidableEq, Repr

/-- The uncaught exceptions the source can raise: missing config file,
missing/empty `input_pdf`, a `KeyError` on a required dict key, the
`ValueError` of `_parse_cell_ref`, the `ValueError` of `PIL.Image.crop`,
and the `ValueError` of `Worksheet.cell` on row/column < 1. -/
inductive Err where
  | configNotFound (path : String)
  | inputNotFound
  | keyError (k : String)
  | cellRefError (s : String)
  | cropError (msg : String)
  | rowColError
deriving DecidableEq, Repr

/-- A Python dict with string keys, as an insertion-ordered association
list (Python dicts preserve insertion order; updating an existing key
keeps its position). -/
abbrev Dict := List (String × PyVal)

/-- `d[k] = v` on a Python dict: overwrite the entry in place if the key
exists (keeping its position), else append a new entry at the end. -/
def dictSet : Dict → String → PyVal → Dict
  | [], k, v => [(k, v)]
  | kv :: rest, k, v =>
      if kv.1 == k then (k, v) :: rest else kv :: dictSet rest k v

/-- `d.get(k)` on a Python dict: the value at the entry with key `k`, if
any. -/
def dictGet : Dict → String → Option PyVal
  | [], _ => none
  | kv :: rest, k => if kv.1 == k then some kv.2 else dictGet rest k

/-- `list(d.keys())` of a Python dict. -/
def dictKeys (d : Dict) : List String :=
  d.map (fun kv => kv.1)

/-- A single-channel raster image: rows of pixel brightness values. -/
abbrev Image := List (List Nat)

/-- The opaque OCR engine: image, tesseract configuration string,
language tag ↦ recognized text (`pytesseract.image_to_string`). -/
abbrev OCR := Image → String → String → String

/-- Python `str.strip()` on a character list: drop whitespace from both
ends. -/
def pyStrip (l : List Char) : List Char :=
  ((l.dropWhile Char.isWhitespace).reverse.dropWhile Char.isWhitespace).reverse

/-- Python `str.strip()` on a string. -/
def pyStripStr (s : String) : String :=
  String.mk (pyStrip s.data)

/-- The `page_index` of a field as the source reads it: the literal
`"all"` or a specific 1-based page number. -/
inductive PageIndex where
  | all
  | num (n : Int)
deriving DecidableEq, Repr

/-- One entry of the `fields` list of the configuration.  `name` and
`box` are accessed with `field[...]` (required); the remaining keys are
accessed with `field.get(...)` and are optional. -/
structure Field where
  name : String
  box : Int × Int × Int × Int
  page_index : Option PageIndex := none
  ocr_whitelist : Option String := none
  lang : Option String := none
  cell : Option String := none
deriving DecidableEq, Repr

/-- The parsed `config.json`.  `fields` defaults to `[]` when absent, so
it is a plain list; the other optional keys stay `Option`. -/
structure Config where
  input_pdf : Option String := none
  output_excel : Option String := none
  fields : List Field := []
  page_cell : Option String := none
  omit_page_column : Option Bool := none
deriving DecidableEq, Repr

/-- `preprocess_image`: threshold every pixel at the fixed value 150 —
strictly brighter pixels become 255, all others 0 (the source's
`point(lambda p: 255 if p > threshold else 0, mode="1")` followed by the
lossless `"1"` → `"L"` round trip). -/
def preprocess_image (img : Image) : Image :=
  img.map (fun row => row.map (fun p => if 150 < p then 255 else 0))

/-- Pixel lookup with PIL's crop fill: coordinates outside the image read
as 0 (black). -/
def pixelAt (img : Image) (x y : Int) : Nat :=
  if 0 ≤ x ∧ 0 ≤ y then ((img.getD y.toNat []).getD x.toNat 0) else 0

/-- `PIL.Image.crop((left, top, right, bottom))`: `ValueError` when
`right < left` or `bottom < top`; otherwise a `(right-left)×(bottom-top)`
image whose out-of-bounds pixels are zero-filled.  The rectangle is never
clamped to the page. -/
def cropImage (img : Image) (left top right bottom : Int) : Except Err Image :=
  if right < left then .error (.cropError "Coordinate right is less than left")
  else if bottom < top then .error (.cropError "Coordinate lower is less than upper")
  else .ok ((List.range (bottom - top).toNat).map (fun dy =>
    (List.range (right - left).toNat).map (fun dx =>
      pixelAt img (left + (dx : Int)) (top + (dy : Int)))))

/-- `field.get("page_index", "all")` followed by the skip test: does this
field apply to page `page_num`? -/
def fieldMatches (f : Field) (page_num : Int) : Bool :=
  match f.page_index.getD .all with
  | .all => true
  | .num n => page_num == n

/-- `field.get("ocr_whitelist", "0123456789.")`. -/
def fieldWhitelist (f : Field) : String :=
  f.ocr_whitelist.getD "0123456789."

/-- `field.get("lang", "eng")`. -/
def fieldLang (f : Field) : String :=
  f.lang.getD "eng"

/-- The tesseract configuration string: `"--psm 7"`, extended with a
character whitelist exactly when the (defaulted) whitelist is a
non-empty string. -/
def tesseractConfig (f : Field) : String :=
  if fieldWhitelist f ≠ "" then
    "--psm 7 -c tessedit_char_whitelist=" ++ fieldWhitelist f
  else
    "--psm 7"

/-- The body of the per-field loop of `extract_data_from_pdf`: skip the
field if its `page_index` does not match, otherwise crop, preprocess,
run OCR and store the stripped text under the field's name. -/
def extractField (ocr : OCR) (img : Image) (page_num : Int) (d : Dict) (f : Field) :
    Except Err Dict :=
  if fieldMatches f page_num then
    match cropImage img f.box.1 f.box.2.1 f.box.2.2.1 f.box.2.2.2 with
    | .error e => .error e
    | .ok cropped =>
        let clean := preprocess_image cropped
        let text := ocr clean (tesseractConfig f) (fieldLang f)
        .ok (dictSet d f.name (.str (pyStripStr text)))
  else
    .ok d

/-- The per-field loop over a page's fields, threading the page record. -/
def extractFields (ocr : OCR) (img : Image) (page_num : Int) :
    List Field → Dict → Except Err Dict
  | [], d => .ok d
  | f :: fs, d =>
      match extractField ocr img page_num d f with
      | .error e => .error e
      | .ok d' => extractFields ocr img page_num fs d'

/-- One iteration of the per-page loop: the record starts as
`{"Page": page_num}` and is filled by the field loop. -/
def extractPage (ocr : OCR) (fields : List Field) (img : Image) (page_num : Int) :
    Except Err Dict :=
  extractFields ocr img page_num fields [("Page", PyVal.int page_num)]

/-- The per-page loop of `extract_data_from_pdf`, numbering pages from
`n` (the source starts at 1) and appending each record in page order. -/
def extractPages (ocr : OCR) (fields : List Field) :
    List Image → Int → Except Err (List Dict)
  | [], _ => .ok []
  | img :: rest, n =>
      match extractPage ocr fields img n with
      | .error e => .error e
      | .ok d =>
          match extractPages ocr fields rest (n + 1) with
          | .error e => .error e
          | .ok ds => .ok (d :: ds)

/-- `extract_data_from_pdf`: check `input_pdf` is present, non-empty and
exists, rasterize it (`convert_from_path`, opaque, given by `raster`),
then run the page loop starting at page 1. -/
def extract_data_from_pdf (cfg : Config) (exists_ : String → Bool)
    (raster : String → List Image) (ocr : OCR) : Except Err (List Dict) :=
  match cfg.input_pdf with
  | none => .error .inputNotFound
  | some p =>
      if p == "" || !(exists_ p) then .error .inputNotFound
      else extractPages ocr cfg.fields (raster p) 1

/-- The column value of one letter under openpyxl's case-insensitive
column lookup (`"A"`/`"a"` ↦ 1, …, `"Z"`/`"z"` ↦ 26). -/
def letterVal (c : Char) : Int :=
  if 'a' ≤ c ∧ c ≤ 'z' then (c.toNat : Int) - 96 else (c.toNat : Int) - 64

/-- `openpyxl.utils.column_index_from_string`: its cache holds exactly
the column names `A`..`ZZZ`, looked up after upcasing, so a letter string
succeeds iff it has one to three letters; anything longer raises
`ValueError`. -/
def column_index_from_string (letters : List Char) : Option Int :=
  if 1 ≤ letters.length ∧ letters.length ≤ 3 ∧ letters.all Char.isAlpha then
    some (letters.foldl (fun acc c => acc * 26 + letterVal c) 0)
  else none

/-- Digit string to the integer Python's `int()` returns. -/
def digitsToInt (l : List Char) : Int :=
  l.foldl (fun acc c => acc * 10 + ((c.toNat : Int) - 48)) 0

/-- `_parse_cell_ref`: strip the input, split it as the regex
`^([A-Za-z]+)(\d+)$` does into a maximal letter prefix and a digit
suffix (both non-empty, nothing left over), then return
`(row, column_index_from_string(letters))`.  Both a failed regex match
and a failed column lookup raise `ValueError`.  `\d` is modelled as the
ASCII digits (Python's `\d` would additionally admit other Unicode
decimal digits). -/
def _parse_cell_ref (cell_ref : String) : Except Err (Int × Int) :=
  let s := pyStrip cell_ref.data
  let letters := s.takeWhile Char.isAlpha
  let rest := s.dropWhile Char.isAlpha
  if letters.isEmpty || rest.isEmpty || !(rest.all Char.isDigit) then
    .error (.cellRefError cell_ref)
  else
    match column_index_from_string letters with
    | none => .error (.cellRefError cell_ref)
    | some col => .ok (digitsToInt rest, col)

/-- One `ws.cell(row=.., column=.., value=..)` call, recorded as a write
event. -/
structure CellWrite where
  row : Int
  col : Int
  val : PyVal
deriving DecidableEq, Repr

/-- `Worksheet.cell`: `ValueError` when the row or column is < 1; a
`None` value leaves the sheet untouched; otherwise the write is
appended to the write trace. -/
def wsCell (ws : List CellWrite) (row col : Int) (v : PyVal) :
    Except Err (List CellWrite) :=
  if row < 1 ∨ col < 1 then .error .rowColError
  else if v = .pynone then .ok ws
  else .ok (ws ++ [⟨row, col, v⟩])

/-- Truthiness of `field.get("cell")`: present and non-empty. -/
def fieldHasCell (f : Field) : Bool :=
  match f.cell with
  | none => false
  | some s => s ≠ ""

/-- The cell string of a field (meaningful when `fieldHasCell`). -/
def cellStr (f : Field) : String :=
  f.cell.getD ""

/-- The header loop of `save_to_excel`: for each field with a cell,
parse the reference and write the field's name one row above the anchor
row in the anchor column. -/
def writeHeaders : List Field → List CellWrite → Except Err (List CellWrite)
  | [], ws => .ok ws
  | f :: fs, ws =>
      if fieldHasCell f then
        match _parse_cell_ref (cellStr f) with
        | .error e => .error e
        | .ok (r, c) =>
            match wsCell ws (r - 1) c (PyVal.str f.name) with
            | .error e => .error e
            | .ok ws' => writeHeaders fs ws'
      else writeHeaders fs ws

/-- The inner field loop of the data loop: for each field with a cell,
write `record.get(name, "")` at `anchor_row + i` in the anchor column. -/
def writeRow (i : Int) (d : Dict) : List Field → List CellWrite → Except Err (List CellWrite)
  | [], ws => .ok ws
  | f :: fs, ws =>
      if fieldHasCell f then
        match _parse_cell_ref (cellStr f) with
        | .error e => .error e
        | .ok (r, c) =>
            match wsCell ws (r + i) c ((dictGet d f.name).getD (.str "")) with
            | .error e => .error e
            | .ok ws' => writeRow i d fs ws'
      else writeRow i d fs ws

/-- One iteration of the data loop: unless the page column is omitted,
write `record.get("Page")` at `page_row + i` in the page column, then run
the field loop for this record. -/
def writeRecord (fields : List Field) (pOpt : Option (Int × Int)) (i : Int) (d : Dict)
    (ws : List CellWrite) : Except Err (List CellWrite) :=
  match pOpt with
  | none => writeRow i d fields ws
  | some (pr, pc) =>
      match wsCell ws (pr + i) pc ((dictGet d "Page").getD .pynone) with
      | .error e => .error e
      | .ok ws' => writeRow i d fields ws'

/-- The data loop of `save_to_excel` over `enumerate(data)`: record `i`
is written with row offset `i`. -/
def writeRecords (fields : List Field) (pOpt : Option (Int × Int)) :
    Int → List Dict → List CellWrite → Except Err (List CellWrite)
  | _, [], ws => .ok ws
  | i, d :: rest, ws =>
      match writeRecord fields pOpt i d ws with
      | .error e => .error e
      | .ok ws' => writeRecords fields pOpt (i + 1) rest ws'

/-- What `save_to_excel` persists: in coordinate-addressed mode the trace
of cell writes of the workbook saved at `path`, in generic mode the
records as a `DataFrame` exported row-per-record. -/
inductive Output where
  | sheet (writes : List CellWrite) (path : String)
  | table (rows : List Dict) (path : String)
deriving DecidableEq, Repr

/-- The coordinate-addressed branch of `save_to_excel`: page header
(unless omitted, anchored at `page_cell` defaulting to `"A2"`), then the
field headers, then the data loop; the workbook is saved only after every
write succeeded. -/
def coordSave (cfg : Config) (data : List Dict) (path : String) : Except Err Output :=
  match (if cfg.omit_page_column.getD false then
           Except.ok (none : Option (Int × Int))
         else
           match _parse_cell_ref (cfg.page_cell.getD "A2") with
           | .error e => .error e
           | .ok rc => .ok (some rc)) with
  | .error e => .error e
  | .ok pOpt =>
      match (match pOpt with
             | none => Except.ok ([] : List CellWrite)
             | some (pr, pc) => wsCell [] (pr - 1) pc (PyVal.str "Page")) with
      | .error e => .error e
      | .ok ws0 =>
          match writeHeaders cfg.fields ws0 with
          | .error e => .error e
          | .ok ws1 =>
              match writeRecords cfg.fields pOpt 0 data ws1 with
              | .error e => .error e
              | .ok ws2 => .ok (Output.sheet ws2 path)

/-- `save_to_excel`: coordinate-addressed mode when some field has a
truthy `cell` (and the field list is non-empty), generic tabular mode
otherwise. -/
def save_to_excel (data : List Dict) (output_path : String) (config : Option Config) :
    Except Err Output :=
  match config with
  | none => .ok (.table data output_path)
  | some cfg =>
      if cfg.fields.any fieldHasCell && !cfg.fields.isEmpty then
        coordSave cfg data output_path
      else
        .ok (.table data output_path)

/-- `main`: resolve the config path from the environment (default
`config.json`), load the configuration (opaque loader `loadCfg`),
extract, then save to `conf["output_excel"]` (a `KeyError` when that key
is absent).  No error is caught anywhere. -/
def runMain (env : Option String) (loadCfg : String → Except Err Config)
    (exists_ : String → Bool) (raster : String → List Image) (ocr : OCR) :
    Except Err Output :=
  let path := env.getD "config.json"
  match loadCfg path with
  | .error e => .error e
  | .ok conf =>
      match extract_data_from_pdf conf exists_ raster ocr with
      | .error e => .error e
      | .ok result =>
          match conf.output_excel with
          | none => .error (.keyError "output_excel")
          | some outp => save_to_excel result outp (some conf)

/-- The spec's wording of the cell-reference pattern, for comparison with
what `_parse_cell_ref` accepts: the string consists of one-or-more
letters followed by one-or-more digits (the regex
`^[A-Za-z]+\d+$` on the raw, unstripped input). -/
def lettersThenDigits (s : String) : Bool :=
  let l := s.data
  let letters := l.takeWhile Char.isAlpha
  let rest := l.dropWhile Char.isAlpha
  !letters.isEmpty && !rest.isEmpty && rest.all Char.isDigit

/-- Well-formedness of a field's crop rectangle: the condition under
which `PIL.Image.crop` does not raise. -/
def boxOk (f : Field) : Prop :=
  f.box.1 ≤ f.box.2.2.1 ∧ f.box.2.1 ≤ f.box.2.2.2

instance (f : Field) : Decidable (boxOk f) := by
  unfold boxOk; infer_instance

/-- A field with its `cell` key removed, for stating that extraction
never reads `cell`. -/
def eraseCell (f : Field) : Field :=
  { f with cell := none }

/-- Concrete scenario: a field anchored at `"B1"`, whose header row would
be row 0. -/
def cfgB1 : Config :=
  { fields := [{ name := "F", box := (0, 0, 1, 1), cell := some "B1" }] }

/-- Concrete scenario: one field named `"Page"` matching every page. -/
def cfgNamePage : Config :=
  { input_pdf := some "a.pdf", fields := [{ name := "Page", box := (0, 0, 1, 1) }] }

/-- Concrete scenario: a crop rectangle `(0,0,10,10)` far beyond a 2×2
page. -/
def cfgBigBox : Config :=
  { input_pdf := some "a.pdf", fields := [{ name := "F", box := (0, 0, 10, 10) }] }

/-- Concrete scenario: `page_cell` configured as `"A1"`, whose `"Page"`
header row would be row 0. -/
def cfgPageA1 : Config :=
  { fields := [{ name := "F", box := (0, 0, 1, 1), cell := some "B2" }],
    page_cell := some "A1" }

/-- Concrete scenario: a field named `"Page"` restricted to page 2, over
a two-page document. -/
def cfgPageIdx2 : Config :=
  { input_pdf := some "a.pdf",
    fields := [{ name := "Page", box := (0, 0, 1, 1), page_index := some (.num 2) }] }

/-- Concrete coordinate-mode job: two fields anchored at `"B2"` and
`"C2"`. -/
def cfgTwoCols : Config :=
  { fields := [{ name := "F", box := (0, 0, 1, 1), cell := some "B2" },
               { name := "G", box := (0, 0, 1, 1), cell := some "C2" }] }

/-- Three aggregated records for `cfgTwoCols`. -/
def dataThree : List Dict :=
  [[("Page", .int 1), ("F", .str "10"), ("G", .str "a")],
   [("Page", .int 2), ("F", .str "20"), ("G", .str "b")],
   [("Page", .int 3), ("F", .str "30"), ("G", .str "c")]]

/-- The write trace `save_to_excel` produces for `dataThree` under
`cfgTwoCols`. -/
def wsThree : List CellWrite :=
  [⟨1, 1, .str "Page"⟩, ⟨1, 2, .str "F"⟩, ⟨1, 3, .str "G"⟩,
   ⟨2, 1, .int 1⟩, ⟨2, 2, .str "10"⟩, ⟨2, 3, .str "a"⟩,
   ⟨3, 1, .int 2⟩, ⟨3, 2, .str "20"⟩, ⟨3, 3, .str "b"⟩,
   ⟨4, 1, .int 3⟩, ⟨4, 2, .str "30"⟩, ⟨4, 3, .str "c"⟩]

/-- Concrete single-field job for exercising the extractor. -/
def cfgOneField : Config :=
  { input_pdf := some "a.pdf", fields := [{ name := "F", box := (0, 0, 1, 1) }] }

/-- Concrete job with a page-restricted field and an unrestricted one. -/
def cfgMixed : Config :=
  { input_pdf := some "a.pdf",
    fields := [{ name := "F", box := (0, 0, 1, 1), page_index := some (.num 2) },
               { name := "G", box := (0, 0, 1, 1) }] }

/-- Concrete coordinate-mode job with one anchored and one unanchored
field. -/
def cfgHalfCells : Config :=
  { fields := [{ name := "F", box := (0, 0, 1, 1), cell := some "B2" },
               { name := "H", box := (0, 0, 1, 1) }] }

/-- Concrete coordinate-mode job with a single field anchored at `"B2"`
and the page column left at its default anchor. -/
def cfgOneCol : Config :=
  { fields := [{ name := "F", box := (0, 0, 1, 1), cell := some "B2" }] }

/-- A single aggregated record for `cfgOneCol`. -/
def dataOne : List Dict :=
  [[("Page", .int 1), ("F", .str "10")]]

/-- The write trace `save_to_excel` produces for `dataOne` under
`cfgOneCol`. -/
def wsOne : List CellWrite :=
  [⟨1, 1, .str "Page"⟩, ⟨1, 2, .str "F"⟩, ⟨2, 1, .int 1⟩, ⟨2, 2, .str "10"⟩]

end OcrToExcel

namespace OcrToExcel

/-! ### Dictionary lemmas -/

theorem dictGet_dictSet (d : Dict) (k : String) (v : PyVal) (k' : String) :
    dictGet (dictSet d k v) k' = if k' = k then some v else dictGet d k' := by
  induction d with
  | nil =>
      by_cases h : k' = k
      · simp [dictSet, dictGet, h]
      · simp [dictSet, dictGet, h, Ne.symm h]
  | cons kv rest ih =>
      by_cases hk : kv.1 = k
      · by_cases h : k' = k
        · simp [dictSet, dictGet, hk, h]
        · have hne : ¬ kv.1 = k' := by rw [hk]; exact Ne.symm h
          have hne' : ¬ k = k' := Ne.symm h
          simp [dictSet, dictGet, hk, h, hne, hne']
      · by_cases hh : kv.1 = k'
        · have hne : ¬ k' = k := fun hc => hk (by rw [hh, hc])
          simp [dictSet, dictGet, hk, hh, hne]
        · simp [dictSet, dictGet, hk, hh, ih]

theorem mem_dictKeys_dictSet (d : Dict) (k : String) (v : PyVal) (k' : String) :
    k' ∈ dictKeys (dictSet d k v) ↔ k' ∈ dictKeys d ∨ k' = k := by
  induction d with
  | nil => simp [dictSet, dictKeys]
  | cons kv rest ih =>
      by_cases hk : kv.1 = k
      · have hset : dictKeys (dictSet (kv :: rest) k v) = k :: dictKeys rest := by
          simp [dictSet, dictKeys, hk]
        have hkeys : dictKeys (kv :: rest) = k :: dictKeys rest := by
          simp [dictKeys, hk]
        rw [hset, hkeys]
        simp only [List.mem_cons]
        tauto
      · have hset : dictKeys (dictSet (kv :: rest) k v) =
            kv.1 :: dictKeys (dictSet rest k v) := by
          simp [dictSet, dictKeys, hk]
        have hkeys : dictKeys (kv :: rest) = kv.1 :: dictKeys rest := rfl
        rw [hset, hkeys]
        simp only [List.mem_cons, ih]
        tauto

/-! ### Crop lemmas -/

theorem cropImage_ok_iff (img : Image) (l t r b : Int) :
    (∃ out, cropImage img l t r b = .ok out) ↔ (l ≤ r ∧ t ≤ b) := by
  unfold cropImage
  by_cases h1 : r < l
  · rw [if_pos h1]
    constructor
    · rintro ⟨out, h⟩; simp at h
    · intro h; exfalso; omega
  · by_cases h2 : b < t
    · rw [if_neg h1, if_pos h2]
      constructor
      · rintro ⟨out, h⟩; simp at h
      · intro h; exfalso; omega
    · rw [if_neg h1, if_neg h2]
      exact ⟨fun _ => ⟨by omega, by omega⟩, fun _ => ⟨_, rfl⟩⟩

/-! ### Extraction loop lemmas -/

theorem extractFields_cons (ocr : OCR) (img : Image) (n : Int) (f : Field)
    (fs : List Field) (d : Dict) :
    extractFields ocr img n (f :: fs) d =
      match extractField ocr img n d f with
      | .error e => .error e
      | .ok dm => extractFields ocr img n fs dm := rfl

theorem extractFields_cons_inv (ocr : OCR) (img : Image) (n : Int) (f : Field)
    (fs : List Field) (d d' : Dict)
    (h : extractFields ocr img n (f :: fs) d = .ok d') :
    ∃ dm, extractField ocr img n d f = .ok dm ∧
      extractFields ocr img n fs dm = .ok d' := by
  cases hf : extractField ocr img n d f with
  | error e => rw [extractFields_cons, hf] at h; cases h
  | ok dm => rw [extractFields_cons, hf] at h; exact ⟨dm, rfl, h⟩

theorem extractField_not_matches (ocr : OCR) (img : Image) (n : Int) (d : Dict)
    (f : Field) (hm : fieldMatches f n = false) :
    extractField ocr img n d f = .ok d := by
  simp [extractField, hm]

theorem extractField_matches_inv (ocr : OCR) (img : Image) (n : Int) (d : Dict)
    (f : Field) (dm : Dict) (hm : fieldMatches f n = true)
    (h : extractField ocr img n d f = .ok dm) :
    ∃ cropped, cropImage img f.box.1 f.box.2.1 f.box.2.2.1 f.box.2.2.2 = .ok cropped ∧
      dm = dictSet d f.name
        (.str (pyStripStr (ocr (preprocess_image cropped) (tesseractConfig f)
          (fieldLang f)))) := by
  unfold extractField at h
  rw [if_pos hm] at h
  cases hc : cropImage img f.box.1 f.box.2.1 f.box.2.2.1 f.box.2.2.2 with
  | error e => rw [hc] at h; cases h
  | ok cropped =>
      rw [hc] at h
      injection h with h
      exact ⟨cropped, rfl, h.symm⟩

theorem extractField_matches_crop_ok (ocr : OCR) (img : Image) (n : Int) (d : Dict)
    (f : Field) (dm : Dict) (hm : fieldMatches f n = true)
    (h : extractField ocr img n d f = .ok dm) : boxOk f := by
  obtain ⟨cropped, hc, -⟩ := extractField_matches_inv ocr img n d f dm hm h
  exact (cropImage_ok_iff img f.box.1 f.box.2.1 f.box.2.2.1 f.box.2.2.2).mp ⟨cropped, hc⟩

theorem extractFields_keys (ocr : OCR) (img : Image) (n : Int) (fs : List Field)
    (d d' : Dict) (h : extractFields ocr img n fs d = .ok d') (k : String) :
    k ∈ dictKeys d' ↔
      k ∈ dictKeys d ∨ ∃ f ∈ fs, fieldMatches f n = true ∧ f.name = k := by
  induction fs generalizing d with
  | nil =>
      simp only [extractFields, Except.ok.injEq] at h
      subst h
      simp
  | cons f fs ih =>
      obtain ⟨dm, hf, hrest⟩ := extractFields_cons_inv ocr img n f fs d d' h
      cases hm : fieldMatches f n with
      | false =>
          have hdm : dm = d := by
            rw [extractField_not_matches ocr img n d f hm] at hf
            injection hf with hf
            exact hf.symm
          subst hdm
          rw [ih dm hrest]
          simp only [List.mem_cons]
          constructor
          · rintro (hk | ⟨f', hf', hmf', hnf'⟩)
            · exact Or.inl hk
            · exact Or.inr ⟨f', Or.inr hf', hmf', hnf'⟩
          · rintro (hk | ⟨f', hf' | hf', hmf', hnf'⟩)
            · exact Or.inl hk
            · rw [hf'] at hmf'; rw [hm] at hmf'; cases hmf'
            · exact Or.inr ⟨f', hf', hmf', hnf'⟩
      | true =>
          obtain ⟨cropped, -, hdm⟩ := extractField_matches_inv ocr img n d f dm hm hf
          subst hdm
          rw [ih _ hrest]
          rw [mem_dictKeys_dictSet]
          simp only [List.mem_cons]
          constructor
          · rintro ((hk | hk) | ⟨f', hf', hmf', hnf'⟩)
            · exact Or.inl hk
            · exact Or.inr ⟨f, Or.inl rfl, hm, hk.symm⟩
            · exact Or.inr ⟨f', Or.inr hf', hmf', hnf'⟩
          · rintro (hk | ⟨f', hf' | hf', hmf', hnf'⟩)
            · exact Or.inl (Or.inl hk)
            · exact Or.inl (Or.inr (by rw [← hnf', hf']))
            · exact Or.inr ⟨f', hf', hmf', hnf'⟩

theorem extractFields_get_ne (ocr : OCR) (img : Image) (n : Int) (fs : List Field)
    (d d' : Dict) (k : String) (hk : ∀ f ∈ fs, f.name ≠ k)
    (h : extractFields ocr img n fs d = .ok d') :
    dictGet d' k = dictGet d k := by
  induction fs generalizing d with
  | nil =>
      simp only [extractFields, Except.ok.injEq] at h
      subst h; rfl
  | cons f fs ih =>
      obtain ⟨dm, hf, hrest⟩ := extractFields_cons_inv ocr img n f fs d d' h
      have htail : ∀ f' ∈ fs, f'.name ≠ k := fun f' hf' => hk f' (List.mem_cons_of_mem f hf')
      cases hm : fieldMatches f n with
      | false =>
          have hdm : dm = d := by
            rw [extractField_not_matches ocr img n d f hm] at hf
            injection hf with hf
            exact hf.symm
          subst hdm
          exact ih dm htail hrest
      | true =>
          obtain ⟨cropped, -, hdm⟩ := extractField_matches_inv ocr img n d f dm hm hf
          subst hdm
          rw [ih _ htail hrest, dictGet_dictSet]
          exact if_neg (fun hc => hk f (List.mem_cons_self f fs) hc.symm)

theorem extractFields_boxOk (ocr : OCR) (img : Image) (n : Int) (fs : List Field)
    (d d' : Dict) (h : extractFields ocr img n fs d = .ok d') :
    ∀ f ∈ fs, fieldMatches f n = true → boxOk f := by
  induction fs generalizing d with
  | nil => intro f hf; cases hf
  | cons f fs ih =>
      obtain ⟨dm, hf, hrest⟩ := extractFields_cons_inv ocr img n f fs d d' h
      intro f' hf' hm'
      rcases List.mem_cons.mp hf' with heq | htail
      · subst heq
        exact extractField_matches_crop_ok ocr img n d f' dm hm' hf
      · exact ih dm hrest f' htail hm'

theorem extractFields_total (ocr : OCR) (img : Image) (n : Int) (fs : List Field)
    (d : Dict) (hb : ∀ f ∈ fs, boxOk f) :
    ∃ d', extractFields ocr img n fs d = .ok d' := by
  induction fs generalizing d with
  | nil => exact ⟨d, rfl⟩
  | cons f fs ih =>
      have hbf : boxOk f := hb f (List.mem_cons_self f fs)
      have htail : ∀ f' ∈ fs, boxOk f' := fun f' hf' => hb f' (List.mem_cons_of_mem f hf')
      cases hm : fieldMatches f n with
      | false =>
          obtain ⟨d', hd'⟩ := ih d htail
          exact ⟨d', by rw [extractFields_cons, extractField_not_matches ocr img n d f hm]; exact hd'⟩
      | true =>
          obtain ⟨cropped, hc⟩ :=
            (cropImage_ok_iff img f.box.1 f.box.2.1 f.box.2.2.1 f.box.2.2.2).mpr hbf
          obtain ⟨d', hd'⟩ := ih (dictSet d f.name
            (.str (pyStripStr (ocr (preprocess_image cropped) (tesseractConfig f)
              (fieldLang f))))) htail
          refine ⟨d', ?_⟩
          rw [extractFields_cons]
          unfold extractField
          rw [if_pos hm, hc]
          exact hd'

theorem extractPages_cons (ocr : OCR) (fields : List Field) (img : Image)
    (rest : List Image) (n : Int) :
    extractPages ocr fields (img :: rest) n =
      match extractPage ocr fields img n with
      | .error e => .error e
      | .ok d =>
          match extractPages ocr fields rest (n + 1) with
          | .error e => .error e
          | .ok ds => .ok (d :: ds) := rfl

theorem extractPages_cons_inv (ocr : OCR) (fields : List Field) (img : Image)
    (rest : List Image) (n : Int) (recs : List Dict)
    (h : extractPages ocr fields (img :: rest) n = .ok recs) :
    ∃ d ds, extractPage ocr fields img n = .ok d ∧
      extractPages ocr fields rest (n + 1) = .ok ds ∧ recs = d :: ds := by
  cases hp : extractPage ocr fields img n with
  | error e => rw [extractPages_cons, hp] at h; cases h
  | ok d =>
      cases hr : extractPages ocr fields rest (n + 1) with
      | error e => rw [extractPages_cons, hp, hr] at h; cases h
      | ok ds =>
          rw [extractPages_cons, hp, hr] at h
          injection h with h
          exact ⟨d, ds, rfl, rfl, h.symm⟩

theorem extractPages_length (ocr : OCR) (fields : List Field) (imgs : List Image)
    (n : Int) (recs : List Dict) (h : extractPages ocr fields imgs n = .ok recs) :
    recs.length = imgs.length := by
  induction imgs generalizing n recs with
  | nil =>
      simp only [extractPages, Except.ok.injEq] at h
      subst h; rfl
  | cons img rest ih =>
      obtain ⟨d, ds, -, hr, hrecs⟩ := extractPages_cons_inv ocr fields img rest n recs h
      subst hrecs
      simp [ih (n + 1) ds hr]

theorem extractPages_get (ocr : OCR) (fields : List Field) (imgs : List Image)
    (n : Int) (recs : List Dict) (h : extractPages ocr fields imgs n = .ok recs)
    (i : Nat) (d : Dict) (hi : recs.get? i = some d) :
    ∃ img, imgs.get? i = some img ∧
      extractPage ocr fields img (n + (i : Int)) = .ok d := by
  induction imgs generalizing n recs i with
  | nil =>
      simp only [extractPages, Except.ok.injEq] at h
      subst h; cases hi
  | cons img rest ih =>
      obtain ⟨d0, ds, hp, hr, hrecs⟩ := extractPages_cons_inv ocr fields img rest n recs h
      subst hrecs
      cases i with
      | zero =>
          injection hi with hi
          subst hi
          exact ⟨img, rfl, by simpa using hp⟩
      | succ j =>
          obtain ⟨img', hg, hpage⟩ := ih (n + 1) ds hr j (by simpa using hi)
          refine ⟨img', by simpa using hg, ?_⟩
          have : n + 1 + (j : Int) = n + ((j : Int) + 1) := by ring
          rw [this] at hpage
          simpa using hpage

theorem extractPages_total (ocr : OCR) (fields : List Field) (imgs : List Image)
    (n : Int) (hb : ∀ f ∈ fields, boxOk f) :
    ∃ recs, extractPages ocr fields imgs n = .ok recs := by
  induction imgs generalizing n with
  | nil => exact ⟨[], rfl⟩
  | cons img rest ih =>
      obtain ⟨d, hd⟩ := extractFields_total ocr img n fields
        [("Page", PyVal.int n)] hb
      obtain ⟨ds, hds⟩ := ih (n + 1)
      have hp : extractPage ocr fields img n = .ok d := hd
      exact ⟨d :: ds, by rw [extractPages_cons, hp, hds]⟩

/-! ### Writer lemmas -/

theorem wsCell_ok_inv (ws : List CellWrite) (r c : Int) (v : PyVal)
    (ws' : List CellWrite) (h : wsCell ws r c v = .ok ws') :
    1 ≤ r ∧ 1 ≤ c ∧
      ((v = .pynone ∧ ws' = ws) ∨ (v ≠ .pynone ∧ ws' = ws ++ [⟨r, c, v⟩])) := by
  unfold wsCell at h
  by_cases h1 : r < 1 ∨ c < 1
  · rw [if_pos h1] at h; cases h
  · rw [if_neg h1] at h
    push_neg at h1
    by_cases h2 : v = .pynone
    · rw [if_pos h2] at h
      injection h with h
      exact ⟨h1.1, h1.2, Or.inl ⟨h2, h.symm⟩⟩
    · rw [if_neg h2] at h
      injection h with h
      exact ⟨h1.1, h1.2, Or.inr ⟨h2, h.symm⟩⟩

theorem wsCell_mem (ws : List CellWrite) (r c : Int) (v : PyVal)
    (ws' : List CellWrite) (h : wsCell ws r c v = .ok ws') :
    ∀ w ∈ ws, w ∈ ws' := by
  intro w hw
  obtain ⟨-, -, (⟨-, hws⟩ | ⟨-, hws⟩)⟩ := wsCell_ok_inv ws r c v ws' h
  · exact hws ▸ hw
  · exact hws ▸ List.mem_append_left _ hw

theorem writeHeaders_cons (f : Field) (fs : List Field) (ws : List CellWrite) :
    writeHeaders (f :: fs) ws =
      if fieldHasCell f then
        match _parse_cell_ref (cellStr f) with
        | .error e => .error e
        | .ok (r, c) =>
            match wsCell ws (r - 1) c (PyVal.str f.name) with
            | .error e => .error e
            | .ok ws' => writeHeaders fs ws'
      else writeHeaders fs ws := rfl

theorem writeHeaders_grow (fs : List Field) :
    ∀ ws ws', writeHeaders fs ws = .ok ws' → ∀ w ∈ ws, w ∈ ws' := by
  induction fs with
  | nil =>
      intro ws ws' h w hw
      simp only [writeHeaders, Except.ok.injEq] at h
      exact h ▸ hw
  | cons f fs ih =>
      intro ws ws' h w hw
      rw [writeHeaders_cons] at h
      by_cases hc : fieldHasCell f
      · rw [if_pos hc] at h
        cases hp : _parse_cell_ref (cellStr f) with
        | error e => rw [hp] at h; cases h
        | ok rc =>
            obtain ⟨r, c⟩ := rc
            rw [hp] at h
            dsimp only at h
            cases hwsc : wsCell ws (r - 1) c (PyVal.str f.name) with
            | error e => rw [hwsc] at h; cases h
            | ok ws1 =>
                rw [hwsc] at h
                exact ih ws1 ws' h w (wsCell_mem ws _ _ _ ws1 hwsc w hw)
      · rw [if_neg hc] at h
        exact ih ws ws' h w hw

theorem writeHeaders_mem (fs : List Field) :
    ∀ ws ws', writeHeaders fs ws = .ok ws' →
    ∀ f ∈ fs, fieldHasCell f = true →
    ∀ r c : Int, _parse_cell_ref (cellStr f) = .ok (r, c) →
    2 ≤ r ∧ (⟨r - 1, c, .str f.name⟩ : CellWrite) ∈ ws' := by
  induction fs with
  | nil => intro ws ws' h f hf; cases hf
  | cons f0 fs ih =>
      intro ws ws' h f hf hc r c hp
      rcases List.mem_cons.mp hf with heq | htail
      · subst heq
        rw [writeHeaders_cons, if_pos hc, hp] at h
        dsimp only at h
        cases hwsc : wsCell ws (r - 1) c (PyVal.str f.name) with
        | error e => rw [hwsc] at h; cases h
        | ok ws1 =>
            rw [hwsc] at h
            obtain ⟨hr, -, hor⟩ := wsCell_ok_inv ws _ _ _ ws1 hwsc
            have hmem : (⟨r - 1, c, .str f.name⟩ : CellWrite) ∈ ws1 := by
              rcases hor with ⟨hpy, -⟩ | ⟨-, hws1⟩
              · cases hpy
              · rw [hws1]
                exact List.mem_append_right _ (List.mem_singleton.mpr rfl)
            exact ⟨by omega, writeHeaders_grow fs ws1 ws' h _ hmem⟩
      · rw [writeHeaders_cons] at h
        by_cases hc0 : fieldHasCell f0
        · rw [if_pos hc0] at h
          cases hp0 : _parse_cell_ref (cellStr f0) with
          | error e => rw [hp0] at h; cases h
          | ok rc0 =>
              obtain ⟨r0, c0⟩ := rc0
              rw [hp0] at h
              dsimp only at h
              cases hwsc : wsCell ws (r0 - 1) c0 (PyVal.str f0.name) with
              | error e => rw [hwsc] at h; cases h
              | ok ws1 => rw [hwsc] at h; exact ih ws1 ws' h f htail hc r c hp
        · rw [if_neg hc0] at h
          exact ih ws ws' h f htail hc r c hp

theorem writeRow_cons (i : Int) (d : Dict) (f : Field) (fs : List Field)
    (ws : List CellWrite) :
    writeRow i d (f :: fs) ws =
      if fieldHasCell f then
        match _parse_cell_ref (cellStr f) with
        | .error e => .error e
        | .ok (r, c) =>
            match wsCell ws (r + i) c ((dictGet d f.name).getD (.str "")) with
            | .error e => .error e
            | .ok ws' => writeRow i d fs ws'
      else writeRow i d fs ws := rfl

theorem writeRow_grow (i : Int) (d : Dict) (fs : List Field) :
    ∀ ws ws', writeRow i d fs ws = .ok ws' → ∀ w ∈ ws, w ∈ ws' := by
  induction fs with
  | nil =>
      intro ws ws' h w hw
      simp only [writeRow, Except.ok.injEq] at h
      exact h ▸ hw
  | cons f fs ih =>
      intro ws ws' h w hw
      rw [writeRow_cons] at h
      by_cases hc : fieldHasCell f
      · rw [if_pos hc] at h
        cases hp : _parse_cell_ref (cellStr f) with
        | error e => rw [hp] at h; cases h
        | ok rc =>
            obtain ⟨r, c⟩ := rc
            rw [hp] at h
            dsimp only at h
            cases hwsc : wsCell ws (r + i) c ((dictGet d f.name).getD (.str "")) with
            | error e => rw [hwsc] at h; cases h
            | ok ws1 =>
                rw [hwsc] at h
                exact ih ws1 ws' h w (wsCell_mem ws _ _ _ ws1 hwsc w hw)
      · rw [if_neg hc] at h
        exact ih ws ws' h w hw

theorem writeRow_mem (i : Int) (d : Dict) (fs : List Field) :
    ∀ ws ws', writeRow i d fs ws = .ok ws' →
    ∀ f ∈ fs, fieldHasCell f = true →
    ∀ r c : Int, _parse_cell_ref (cellStr f) = .ok (r, c) →
    (dictGet d f.name).getD (.str "") ≠ .pynone →
    (⟨r + i, c, (dictGet d f.name).getD (.str "")⟩ : CellWrite) ∈ ws' := by
  induction fs with
  | nil => intro ws ws' h f hf; cases hf
  | cons f0 fs ih =>
      intro ws ws' h f hf hc r c hp hv
      rcases List.mem_cons.mp hf with heq | htail
      · subst heq
        rw [writeRow_cons, if_pos hc, hp] at h
        dsimp only at h
        cases hwsc : wsCell ws (r + i) c ((dictGet d f.name).getD (.str "")) with
        | error e => rw [hwsc] at h; cases h
        | ok ws1 =>
            rw [hwsc] at h
            obtain ⟨-, -, hor⟩ := wsCell_ok_inv ws _ _ _ ws1 hwsc
            have hmem : (⟨r + i, c, (dictGet d f.name).getD (.str "")⟩ : CellWrite) ∈ ws1 := by
              rcases hor with ⟨hpy, -⟩ | ⟨-, hws1⟩
              · exact absurd hpy hv
              · rw [hws1]
                exact List.mem_append_right _ (List.mem_singleton.mpr rfl)
            exact writeRow_grow i d fs ws1 ws' h _ hmem
      · rw [writeRow_cons] at h
        by_cases hc0 : fieldHasCell f0
        · rw [if_pos hc0] at h
          cases hp0 : _parse_cell_ref (cellStr f0) with
          | error e => rw [hp0] at h; cases h
          | ok rc0 =>
              obtain ⟨r0, c0⟩ := rc0
              rw [hp0] at h
              dsimp only at h
              cases hwsc : wsCell ws (r0 + i) c0 ((dictGet d f0.name).getD (.str "")) with
              | error e => rw [hwsc] at h; cases h
              | ok ws1 => rw [hwsc] at h; exact ih ws1 ws' h f htail hc r c hp hv
        · rw [if_neg hc0] at h
          exact ih ws ws' h f htail hc r c hp hv

theorem writeRecord_inv (fields : List Field) (pOpt : Option (Int × Int)) (i : Int)
    (d : Dict) (ws ws' : List CellWrite) (h : writeRecord fields pOpt i d ws = .ok ws') :
    ∃ ws1, (∀ w ∈ ws, w ∈ ws1) ∧ writeRow i d fields ws1 = .ok ws' ∧
      (∀ pr pc : Int, pOpt = some (pr, pc) →
        ∀ v, dictGet d "Page" = some v → v ≠ .pynone →
        (⟨pr + i, pc, v⟩ : CellWrite) ∈ ws1) := by
  cases pOpt with
  | none =>
      refine ⟨ws, fun w hw => hw, h, ?_⟩
      intro pr pc hpq
      cases hpq
  | some rc =>
      obtain ⟨pr, pc⟩ := rc
      unfold writeRecord at h
      dsimp only at h
      cases hwsc : wsCell ws (pr + i) pc ((dictGet d "Page").getD .pynone) with
      | error e => rw [hwsc] at h; cases h
      | ok ws1 =>
          rw [hwsc] at h
          refine ⟨ws1, wsCell_mem ws _ _ _ ws1 hwsc, h, ?_⟩
          intro pr' pc' hpq v hv hvne
          injection hpq with hpq
          injection hpq with h1 h2
          subst h1
          subst h2
          obtain ⟨-, -, hor⟩ := wsCell_ok_inv ws _ _ _ ws1 hwsc
          rcases hor with ⟨hpy, -⟩ | ⟨-, hws1⟩
          · rw [hv] at hpy
            exact absurd hpy hvne
          · rw [hws1, hv]
            exact List.mem_append_right _ (List.mem_singleton.mpr rfl)

theorem writeRecord_grow (fields : List Field) (pOpt : Option (Int × Int)) (i : Int)
    (d : Dict) (ws ws' : List CellWrite)
    (h : writeRecord fields pOpt i d ws = .ok ws') : ∀ w ∈ ws, w ∈ ws' := by
  intro w hw
  obtain ⟨ws1, hgrow, hrow, -⟩ := writeRecord_inv fields pOpt i d ws ws' h
  exact writeRow_grow i d fields ws1 ws' hrow w (hgrow w hw)

theorem writeRecords_cons (fields : List Field) (pOpt : Option (Int × Int)) (i : Int)
    (d : Dict) (rest : List Dict) (ws : List CellWrite) :
    writeRecords fields pOpt i (d :: rest) ws =
      match writeRecord fields pOpt i d ws with
      | .error e => .error e
      | .ok ws' => writeRecords fields pOpt (i + 1) rest ws' := rfl

theorem writeRecords_grow (fields : List Field) (pOpt : Option (Int × Int)) :
    ∀ (i : Int) (data : List Dict) ws ws',
    writeRecords fields pOpt i data ws = .ok ws' → ∀ w ∈ ws, w ∈ ws' := by
  intro i data
  induction data generalizing i with
  | nil =>
      intro ws ws' h w hw
      simp only [writeRecords, Except.ok.injEq] at h
      exact h ▸ hw
  | cons d rest ih =>
      intro ws ws' h w hw
      rw [writeRecords_cons] at h
      cases hr : writeRecord fields pOpt i d ws with
      | error e => rw [hr] at h; cases h
      | ok ws1 =>
          rw [hr] at h
          exact ih (i + 1) ws1 ws' h w (writeRecord_grow fields pOpt i d ws ws1 hr w hw)

theorem writeRecords_mem (fields : List Field) (pOpt : Option (Int × Int)) :
    ∀ (i : Int) (data : List Dict) ws ws',
    writeRecords fields pOpt i data ws = .ok ws' →
    ∀ (j : Nat) (dj : Dict), data.get? j = some dj →
    ∀ f ∈ fields, fieldHasCell f = true →
    ∀ r c : Int, _parse_cell_ref (cellStr f) = .ok (r, c) →
    (dictGet dj f.name).getD (.str "") ≠ .pynone →
    (⟨r + (i + (j : Int)), c, (dictGet dj f.name).getD (.str "")⟩ : CellWrite) ∈ ws' := by
  intro i data
  induction data generalizing i with
  | nil => intro ws ws' h j dj hj; cases hj
  | cons d rest ih =>
      intro ws ws' h j dj hj f hf hc r c hp hv
      rw [writeRecords_cons] at h
      cases hr : writeRecord fields pOpt i d ws with
      | error e => rw [hr] at h; cases h
      | ok ws1 =>
          rw [hr] at h
          cases j with
          | zero =>
              injection hj with hj
              subst hj
              obtain ⟨ws0, -, hrow, -⟩ := writeRecord_inv fields pOpt i d ws ws1 hr
              have hmem := writeRow_mem i d fields ws0 ws1 hrow f hf hc r c hp hv
              have : r + (i + ((0 : Nat) : Int)) = r + i := by simp
              rw [this]
              exact writeRecords_grow fields pOpt (i + 1) rest ws1 ws' h _ hmem
          | succ j' =>
              have hj' : rest.get? j' = some dj := by simpa using hj
              have := ih (i + 1) ws1 ws' h j' dj hj' f hf hc r c hp hv
              have harith : r + (i + 1 + (j' : Int)) = r + (i + ((j' : Int) + 1)) := by ring
              rw [harith] at this
              simpa using this

theorem writeRecords_page_mem (fields : List Field) (pr pc : Int) :
    ∀ (i : Int) (data : List Dict) ws ws',
    writeRecords fields (some (pr, pc)) i data ws = .ok ws' →
    ∀ (j : Nat) (dj : Dict), data.get? j = some dj →
    ∀ v, dictGet dj "Page" = some v → v ≠ .pynone →
    (⟨pr + (i + (j : Int)), pc, v⟩ : CellWrite) ∈ ws' := by
  intro i data
  induction data generalizing i with
  | nil => intro ws ws' h j dj hj; cases hj
  | cons d rest ih =>
      intro ws ws' h j dj hj v hv hvne
      rw [writeRecords_cons] at h
      cases hr : writeRecord fields (some (pr, pc)) i d ws with
      | error e => rw [hr] at h; cases h
      | ok ws1 =>
          rw [hr] at h
          cases j with
          | zero =>
              injection hj with hj
              subst hj
              obtain ⟨ws0, -, hrow, hpage⟩ :=
                writeRecord_inv fields (some (pr, pc)) i d ws ws1 hr
              have hmem := hpage pr pc rfl v hv hvne
              have hmem1 := writeRow_grow i d fields ws0 ws1 hrow _ hmem
              have : pr + (i + ((0 : Nat) : Int)) = pr + i := by simp
              rw [this]
              exact writeRecords_grow fields (some (pr, pc)) (i + 1) rest ws1 ws' h _ hmem1
          | succ j' =>
              have hj' : rest.get? j' = some dj := by simpa using hj
              have := ih (i + 1) ws1 ws' h j' dj hj' v hv hvne
              have harith : pr + (i + 1 + (j' : Int)) = pr + (i + ((j' : Int) + 1)) := by ring
              rw [harith] at this
              simpa using this

theorem save_sheet_inv (data : List Dict) (path : String) (cfg : Config)
    (ws : List CellWrite) (path' : String)
    (h : save_to_excel data path (some cfg) = .ok (.sheet ws path')) :
    (cfg.fields.any fieldHasCell && !cfg.fields.isEmpty) = true ∧
    coordSave cfg data path = .ok (.sheet ws path') := by
  unfold save_to_excel at h
  dsimp only at h
  by_cases hcond : (cfg.fields.any fieldHasCell && !cfg.fields.isEmpty) = true
  · rw [if_pos hcond] at h
    exact ⟨hcond, h⟩
  · rw [if_neg hcond] at h
    injection h with h
    cases h

theorem coordSave_ok_inv (cfg : Config) (data : List Dict) (path : String)
    (ws : List CellWrite) (path' : String)
    (h : coordSave cfg data path = .ok (.sheet ws path')) :
    path' = path ∧
    ∃ pOpt ws0 ws1,
      writeHeaders cfg.fields ws0 = .ok ws1 ∧
      writeRecords cfg.fields pOpt 0 data ws1 = .ok ws ∧
      ((cfg.omit_page_column.getD false = true ∧ pOpt = none ∧ ws0 = []) ∨
       (cfg.omit_page_column.getD false = false ∧ ∃ pr pc : Int,
          _parse_cell_ref (cfg.page_cell.getD "A2") = .ok (pr, pc) ∧
          pOpt = some (pr, pc) ∧
          wsCell [] (pr - 1) pc (.str "Page") = .ok ws0)) := by
  unfold coordSave at h
  by_cases homit : cfg.omit_page_column.getD false = true
  · rw [if_pos homit] at h
    dsimp only at h
    cases hh : writeHeaders cfg.fields [] with
    | error e => rw [hh] at h; cases h
    | ok ws1 =>
        rw [hh] at h
        dsimp only at h
        cases hrec : writeRecords cfg.fields none 0 data ws1 with
        | error e => rw [hrec] at h; cases h
        | ok ws2 =>
            rw [hrec] at h
            dsimp only at h
            injection h with h
            injection h with h1 h2
            subst h1
            subst h2
            exact ⟨rfl, none, [], ws1, hh, hrec, Or.inl ⟨homit, rfl, rfl⟩⟩
  · rw [if_neg homit] at h
    have homit' : cfg.omit_page_column.getD false = false := by
      cases hob : cfg.omit_page_column.getD false
      · rfl
      · exact absurd hob homit
    cases hp : _parse_cell_ref (cfg.page_cell.getD "A2") with
    | error e => rw [hp] at h; cases h
    | ok rc =>
        obtain ⟨pr, pc⟩ := rc
        rw [hp] at h
        dsimp only at h
        cases hws0 : wsCell [] (pr - 1) pc (PyVal.str "Page") with
        | error e => rw [hws0] at h; cases h
        | ok ws0 =>
            rw [hws0] at h
            dsimp only at h
            cases hh : writeHeaders cfg.fields ws0 with
            | error e => rw [hh] at h; cases h
            | ok ws1 =>
                rw [hh] at h
                dsimp only at h
                cases hrec : writeRecords cfg.fields (some (pr, pc)) 0 data ws1 with
                | error e => rw [hrec] at h; cases h
                | ok ws2 =>
                    rw [hrec] at h
                    dsimp only at h
                    injection h with h
                    injection h with h1 h2
                    subst h1
                    subst h2
                    exact ⟨rfl, some (pr, pc), ws0, ws1, hh, hrec,
                      Or.inr ⟨homit', pr, pc, rfl, rfl, hws0⟩⟩

/-! ### Extractor-level lemmas -/

theorem extract_ok_inv (cfg : Config) (ex : String → Bool) (ras : String → List Image)
    (ocr : OCR) (recs : List Dict)
    (h : extract_data_from_pdf cfg ex ras ocr = .ok recs) :
    ∃ p, cfg.input_pdf = some p ∧ (p == "" || !(ex p)) = false ∧
      extractPages ocr cfg.fields (ras p) 1 = .ok recs := by
  unfold extract_data_from_pdf at h
  cases hip : cfg.input_pdf with
  | none => rw [hip] at h; cases h
  | some p =>
      rw [hip] at h
      dsimp only at h
      by_cases hc : (p == "" || !(ex p)) = true
      · rw [if_pos hc] at h; cases h
      · rw [if_neg hc] at h
        exact ⟨p, rfl, by simpa using hc, h⟩

theorem extract_record_spec (cfg : Config) (ex : String → Bool)
    (ras : String → List Image) (ocr : OCR) (recs : List Dict) (p : String)
    (hip : cfg.input_pdf = some p)
    (h : extract_data_from_pdf cfg ex ras ocr = .ok recs) :
    recs.length = (ras p).length ∧
    ∀ (i : Nat) (d : Dict), recs.get? i = some d →
      (∀ k, k ∈ dictKeys d ↔
        k = "Page" ∨ ∃ f ∈ cfg.fields, fieldMatches f (1 + (i : Int)) = true ∧ f.name = k) ∧
      ((∀ f ∈ cfg.fields, f.name ≠ "Page") →
        dictGet d "Page" = some (.int (1 + (i : Int)))) := by
  obtain ⟨p', hip', -, hpages⟩ := extract_ok_inv cfg ex ras ocr recs h
  rw [hip] at hip'
  injection hip' with hip'
  subst hip'
  refine ⟨extractPages_length ocr cfg.fields (ras p) 1 recs hpages, ?_⟩
  intro i d hi
  obtain ⟨img, -, hpage⟩ := extractPages_get ocr cfg.fields (ras p) 1 recs hpages i d hi
  have hpage' : extractFields ocr img (1 + (i : Int)) cfg.fields
      [("Page", PyVal.int (1 + (i : Int)))] = .ok d := hpage
  constructor
  · intro k
    have hkeys := extractFields_keys ocr img (1 + (i : Int)) cfg.fields
      [("Page", PyVal.int (1 + (i : Int)))] d hpage' k
    have hinit : k ∈ dictKeys [("Page", PyVal.int (1 + (i : Int)))] ↔ k = "Page" := by
      simp [dictKeys]
    rw [hkeys, hinit]
  · intro hnp
    have hget := extractFields_get_ne ocr img (1 + (i : Int)) cfg.fields
      [("Page", PyVal.int (1 + (i : Int)))] d "Page" hnp hpage'
    rw [hget]
    simp [dictGet]

theorem extract_total (cfg : Config) (ex : String → Bool) (ras : String → List Image)
    (ocr : OCR) (p : String) (hip : cfg.input_pdf = some p) (hne : p ≠ "")
    (hex : ex p = true) (hb : ∀ f ∈ cfg.fields, boxOk f) :
    ∃ recs, extract_data_from_pdf cfg ex ras ocr = .ok recs := by
  obtain ⟨recs, hrecs⟩ := extractPages_total ocr cfg.fields (ras p) 1 hb
  refine ⟨recs, ?_⟩
  unfold extract_data_from_pdf
  rw [hip]
  dsimp only
  have hcond : ¬ ((p == "" || !(ex p)) = true) := by simp [hne, hex]
  rw [if_neg hcond]
  exact hrecs

theorem extract_boxOk (cfg : Config) (ex : String → Bool) (ras : String → List Image)
    (ocr : OCR) (recs : List Dict) (p : String) (hip : cfg.input_pdf = some p)
    (h : extract_data_from_pdf cfg ex ras ocr = .ok recs) :
    ∀ f ∈ cfg.fields, ∀ n : Int, 1 ≤ n → n ≤ ((ras p).length : Int) →
      fieldMatches f n = true → boxOk f := by
  obtain ⟨p', hip', -, hpages⟩ := extract_ok_inv cfg ex ras ocr recs h
  rw [hip] at hip'
  injection hip' with hip'
  subst hip'
  intro f hf n h1 h2 hm
  have hlenr : recs.length = (ras p).length :=
    extractPages_length ocr cfg.fields (ras p) 1 recs hpages
  have hn : n = 1 + ((n - 1).toNat : Int) := by omega
  have hlt : (n - 1).toNat < recs.length := by omega
  have hd : recs.get? (n - 1).toNat = some (recs.get ⟨(n - 1).toNat, hlt⟩) :=
    List.get?_eq_get hlt
  obtain ⟨img, -, hpage⟩ :=
    extractPages_get ocr cfg.fields (ras p) 1 recs hpages (n - 1).toNat _ hd
  have hpage' : extractFields ocr img (1 + ((n - 1).toNat : Int)) cfg.fields
      [("Page", PyVal.int (1 + ((n - 1).toNat : Int)))] =
      .ok (recs.get ⟨(n - 1).toNat, hlt⟩) := hpage
  have hm' : fieldMatches f (1 + ((n - 1).toNat : Int)) = true := by rw [← hn]; exact hm
  exact extractFields_boxOk ocr img (1 + ((n - 1).toNat : Int)) cfg.fields _ _ hpage' f hf hm'

/-! ### The extractor never reads `cell` -/

theorem extractField_eraseCell (ocr : OCR) (img : Image) (n : Int) (d : Dict) (f : Field) :
    extractField ocr img n d (eraseCell f) = extractField ocr img n d f := by
  cases f
  rfl

theorem extractFields_eraseCell (ocr : OCR) (img : Image) (n : Int) (fs : List Field) :
    ∀ d, extractFields ocr img n (fs.map eraseCell) d = extractFields ocr img n fs d := by
  induction fs with
  | nil => intro d; rfl
  | cons f fs ih =>
      intro d
      rw [List.map_cons, extractFields_cons, extractFields_cons, extractField_eraseCell]
      cases hf : extractField ocr img n d f with
      | error e => rfl
      | ok dm => exact ih dm

theorem extractPages_eraseCell (ocr : OCR) (fs : List Field) (imgs : List Image) :
    ∀ n, extractPages ocr (fs.map eraseCell) imgs n = extractPages ocr fs imgs n := by
  induction imgs with
  | nil => intro n; rfl
  | cons img rest ih =>
      intro n
      rw [extractPages_cons, extractPages_cons]
      have hpage : extractPage ocr (fs.map eraseCell) img n = extractPage ocr fs img n :=
        extractFields_eraseCell ocr img n fs [("Page", PyVal.int n)]
      rw [hpage]
      simp only [ih]

theorem extract_eraseCell (cfg : Config) (ex : String → Bool)
    (ras : String → List Image) (ocr : OCR) :
    extract_data_from_pdf { cfg with fields := cfg.fields.map eraseCell } ex ras ocr =
      extract_data_from_pdf cfg ex ras ocr := by
  unfold extract_data_from_pdf
  dsimp only
  cases cfg.input_pdf with
  | none => rfl
  | some p =>
      dsimp only
      by_cases hc : (p == "" || !(ex p)) = true
      · rw [if_pos hc, if_pos hc]
      · rw [if_neg hc, if_neg hc, extractPages_eraseCell]

/-! ### The writer ignores fields without a cell -/

theorem writeHeaders_filter (fs : List Field) :
    ∀ ws, writeHeaders (fs.filter fieldHasCell) ws = writeHeaders fs ws := by
  induction fs with
  | nil => intro ws; rfl
  | cons f fs ih =>
      intro ws
      by_cases hc : fieldHasCell f
      · have hfil : (f :: fs).filter fieldHasCell = f :: fs.filter fieldHasCell := by
          simp [hc]
        rw [hfil, writeHeaders_cons, writeHeaders_cons, if_pos hc, if_pos hc]
        cases hp : _parse_cell_ref (cellStr f) with
        | error e => rfl
        | ok rc =>
            obtain ⟨r, c⟩ := rc
            dsimp only
            cases hwsc : wsCell ws (r - 1) c (PyVal.str f.name) with
            | error e => rfl
            | ok ws1 => exact ih ws1
      · have hfil : (f :: fs).filter fieldHasCell = fs.filter fieldHasCell := by
          simp [hc]
        rw [hfil, writeHeaders_cons, if_neg hc]
        exact ih ws

theorem writeRow_filter (i : Int) (d : Dict) (fs : List Field) :
    ∀ ws, writeRow i d (fs.filter fieldHasCell) ws = writeRow i d fs ws := by
  induction fs with
  | nil => intro ws; rfl
  | cons f fs ih =>
      intro ws
      by_cases hc : fieldHasCell f
      · have hfil : (f :: fs).filter fieldHasCell = f :: fs.filter fieldHasCell := by
          simp [hc]
        rw [hfil, writeRow_cons, writeRow_cons, if_pos hc, if_pos hc]
        cases hp : _parse_cell_ref (cellStr f) with
        | error e => rfl
        | ok rc =>
            obtain ⟨r, c⟩ := rc
            dsimp only
            cases hwsc : wsCell ws (r + i) c ((dictGet d f.name).getD (.str "")) with
            | error e => rfl
            | ok ws1 => exact ih ws1
      · have hfil : (f :: fs).filter fieldHasCell = fs.filter fieldHasCell := by
          simp [hc]
        rw [hfil, writeRow_cons, if_neg hc]
        exact ih ws

theorem writeRecord_filter (fs : List Field) (pOpt : Option (Int × Int)) (i : Int)
    (d : Dict) (ws : List CellWrite) :
    writeRecord (fs.filter fieldHasCell) pOpt i d ws = writeRecord fs pOpt i d ws := by
  cases pOpt with
  | none => exact writeRow_filter i d fs ws
  | some rc =>
      obtain ⟨pr, pc⟩ := rc
      unfold writeRecord
      dsimp only
      cases hwsc : wsCell ws (pr + i) pc ((dictGet d "Page").getD .pynone) with
      | error e => rfl
      | ok ws1 => exact writeRow_filter i d fs ws1

theorem writeRecords_filter (fs : List Field) (pOpt : Option (Int × Int)) :
    ∀ (i : Int) (data : List Dict) ws,
    writeRecords (fs.filter fieldHasCell) pOpt i data ws =
      writeRecords fs pOpt i data ws := by
  intro i data
  induction data generalizing i with
  | nil => intro ws; rfl
  | cons d rest ih =>
      intro ws
      rw [writeRecords_cons, writeRecords_cons, writeRecord_filter]
      cases hr : writeRecord fs pOpt i d ws with
      | error e => rfl
      | ok ws1 => exact ih (i + 1) ws1

theorem coordSave_filter (cfg : Config) (data : List Dict) (path : String) :
    coordSave { cfg with fields := cfg.fields.filter fieldHasCell } data path =
      coordSave cfg data path := by
  unfold coordSave
  dsimp only
  simp only [writeHeaders_filter, writeRecords_filter]

/-! ### Cell-reference parsing characterization -/

theorem takeWhile_all_true {α : Type} (p : α → Bool) (l : List α) :
    (l.takeWhile p).all p = true := by
  simp only [List.all_eq_true]
  exact fun x hx => List.mem_takeWhile_imp hx

theorem parse_ok_iff (s : String) :
    (∃ rc, _parse_cell_ref s = .ok rc) ↔
      (lettersThenDigits (pyStripStr s) = true ∧
       ((pyStrip s.data).takeWhile Char.isAlpha).length ≤ 3) := by
  unfold _parse_cell_ref lettersThenDigits pyStripStr
  dsimp only
  by_cases hcond : ((pyStrip s.data).takeWhile Char.isAlpha).isEmpty ||
      ((pyStrip s.data).dropWhile Char.isAlpha).isEmpty ||
      !(((pyStrip s.data).dropWhile Char.isAlpha).all Char.isDigit)
  · rw [if_pos hcond]
    constructor
    · rintro ⟨rc, hrc⟩; cases hrc
    · rintro ⟨hp, -⟩
      exfalso
      simp only [Bool.and_eq_true, Bool.not_eq_true'] at hp
      simp only [Bool.or_eq_true, Bool.not_eq_true'] at hcond
      rcases hcond with (hc | hc) | hc
      · rw [hp.1.1] at hc; cases hc
      · rw [hp.1.2] at hc; cases hc
      · rw [hp.2] at hc; cases hc
  · rw [if_neg hcond]
    simp only [Bool.or_eq_true, not_or, Bool.not_eq_true, Bool.not_eq_false] at hcond
    obtain ⟨⟨hlet, hrest⟩, hdig⟩ := hcond
    have hall : ((pyStrip s.data).takeWhile Char.isAlpha).all Char.isAlpha = true :=
      takeWhile_all_true Char.isAlpha (pyStrip s.data)
    have hlen1 : 1 ≤ ((pyStrip s.data).takeWhile Char.isAlpha).length := by
      cases hl : (pyStrip s.data).takeWhile Char.isAlpha with
      | nil => rw [hl] at hlet; cases hlet
      | cons a l => simp
    by_cases hlen3 : ((pyStrip s.data).takeWhile Char.isAlpha).length ≤ 3
    · have hcol : column_index_from_string ((pyStrip s.data).takeWhile Char.isAlpha) =
          some (((pyStrip s.data).takeWhile Char.isAlpha).foldl
            (fun acc c => acc * 26 + letterVal c) 0) := by
        unfold column_index_from_string
        rw [if_pos ⟨hlen1, hlen3, hall⟩]
      rw [hcol]
      have hdig' : ((pyStrip s.data).dropWhile Char.isAlpha).all Char.isDigit = true := by
        simpa using hdig
      constructor
      · intro _
        refine ⟨?_, hlen3⟩
        rw [hlet, hrest, hdig']
        rfl
      · intro _
        exact ⟨_, rfl⟩
    · have hcol : column_index_from_string ((pyStrip s.data).takeWhile Char.isAlpha) =
          none := by
        unfold column_index_from_string
        rw [if_neg (fun hc => hlen3 hc.2.1)]
      rw [hcol]
      constructor
      · rintro ⟨rc, hrc⟩; cases hrc
      · rintro ⟨-, hl3⟩
        exact absurd hl3 hlen3

end OcrToExcel

namespace OcrToExcel

/-! ### Claim theorems -/

/-- C1 counterexample: the claim as stated fails — for the field anchored
at `"B1"` the header would go to row 0, `Worksheet.cell` raises
`ValueError`, the whole write aborts and the field's name is written
nowhere. -/
theorem C1_counterexample :
    save_to_excel [[("Page", PyVal.int 1)]] "out.xlsx" (some cfgB1) =
      .error .rowColError := by decide

/-- C1 (amended): in coordinate-addressed mode, whenever the writer
succeeds, every field with a truthy `cell` parsed to anchor `(r, c)` has
`r ≥ 2`, its name written at row `r - 1` of column `c`, and the value of
the record with zero-based index `i` (looked up under the field's name,
defaulting to `""`) written at row `r + i` of column `c`; the offset is
the record's position in the sequence, not its page number. -/
theorem C1_placement (cfg : Config) (data : List Dict) (path : String)
    (ws : List CellWrite) (path' : String)
    (hsave : save_to_excel data path (some cfg) = .ok (.sheet ws path'))
    (f : Field) (hf : f ∈ cfg.fields) (hc : fieldHasCell f = true)
    (r c : Int) (hp : _parse_cell_ref (cellStr f) = .ok (r, c)) :
    2 ≤ r ∧ (⟨r - 1, c, .str f.name⟩ : CellWrite) ∈ ws ∧
    ∀ (i : Nat) (d : Dict), data.get? i = some d →
      (dictGet d f.name).getD (.str "") ≠ .pynone →
      (⟨r + (i : Int), c, (dictGet d f.name).getD (.str "")⟩ : CellWrite) ∈ ws := by
  obtain ⟨-, hcoord⟩ := save_sheet_inv data path cfg ws path' hsave
  obtain ⟨-, pOpt, ws0, ws1, hh, hrec, -⟩ :=
    coordSave_ok_inv cfg data path ws path' hcoord
  obtain ⟨hr2, hhd⟩ := writeHeaders_mem cfg.fields ws0 ws1 hh f hf hc r c hp
  refine ⟨hr2, writeRecords_grow cfg.fields pOpt 0 data ws1 ws hrec _ hhd, ?_⟩
  intro i d hi hv
  have hm := writeRecords_mem cfg.fields pOpt 0 data ws1 ws hrec i d hi f hf hc r c hp hv
  simpa using hm

/-- C1 witness: the spec's example — fields anchored at `"B2"` and
`"C2"` with three records put headers in row 1 and values in rows 2–4 of
columns 2 and 3. -/
theorem C1_witness :
    (⟨1, 2, PyVal.str "F"⟩ : CellWrite) ∈ wsThree ∧
    (⟨2, 2, PyVal.str "10"⟩ : CellWrite) ∈ wsThree ∧
    (⟨4, 2, PyVal.str "30"⟩ : CellWrite) ∈ wsThree ∧
    (⟨4, 3, PyVal.str "c"⟩ : CellWrite) ∈ wsThree := by
  have hsave : save_to_excel dataThree "out.xlsx" (some cfgTwoCols) =
      .ok (.sheet wsThree "out.xlsx") := by decide
  have hF := C1_placement cfgTwoCols dataThree "out.xlsx" wsThree "out.xlsx" hsave
    { name := "F", box := (0, 0, 1, 1), cell := some "B2" } (by decide) (by decide)
    2 2 (by decide)
  have hG := C1_placement cfgTwoCols dataThree "out.xlsx" wsThree "out.xlsx" hsave
    { name := "G", box := (0, 0, 1, 1), cell := some "C2" } (by decide) (by decide)
    2 3 (by decide)
  refine ⟨hF.2.1, ?_, ?_, ?_⟩
  · have := hF.2.2 0 [("Page", .int 1), ("F", .str "10"), ("G", .str "a")] rfl (by decide)
    simpa using this
  · have := hF.2.2 2 [("Page", .int 3), ("F", .str "30"), ("G", .str "c")] rfl (by decide)
    simpa using this
  · have := hG.2.2 2 [("Page", .int 3), ("F", .str "30"), ("G", .str "c")] rfl (by decide)
    simpa using this

/-- C2 counterexample: the claim as stated fails — a field named
`"Page"` overwrites the page number in its record, so with one page the
record's `Page` value is the OCR text `"7"`, not the integer 1. -/
theorem C2_counterexample :
    extract_data_from_pdf cfgNamePage (fun _ => true) (fun _ => [[[0]]])
      (fun _ _ _ => "7") = .ok [[("Page", PyVal.str "7")]] ∧
    dictGet [("Page", PyVal.str "7")] "Page" ≠ some (PyVal.int 1) := by decide

/-- C2 (amended): when extraction succeeds on a document whose PDF
rasterizes to N pages, it produces exactly N Page Records in page order;
within the record of the page with zero-based index `i`, the keys are
exactly `Page` plus the names of the fields whose `page_index` matched
page `1 + i`; and provided no field is named `"Page"`, the `Page` value
of that record is the integer `1 + i`. -/
theorem C2_records (cfg : Config) (ex : String → Bool) (ras : String → List Image)
    (ocr : OCR) (recs : List Dict) (p : String) (hip : cfg.input_pdf = some p)
    (hok : extract_data_from_pdf cfg ex ras ocr = .ok recs) :
    recs.length = (ras p).length ∧
    ∀ (i : Nat) (d : Dict), recs.get? i = some d →
      (∀ k, k ∈ dictKeys d ↔
        k = "Page" ∨ ∃ f ∈ cfg.fields, fieldMatches f (1 + (i : Int)) = true ∧ f.name = k) ∧
      ((∀ f ∈ cfg.fields, f.name ≠ "Page") →
        dictGet d "Page" = some (.int (1 + (i : Int)))) :=
  extract_record_spec cfg ex ras ocr recs p hip hok

/-- C2 witness: a one-page document with one field named `"F"` yields a
record whose keys behave as stated and whose `Page` value is 1. -/
theorem C2_witness :
    ("F" ∈ dictKeys [("Page", PyVal.int 1), ("F", PyVal.str "7")] ↔
      "F" = "Page" ∨ ∃ f ∈ cfgOneField.fields,
        fieldMatches f (1 + ((0 : Nat) : Int)) = true ∧ f.name = "F") ∧
    dictGet [("Page", PyVal.int 1), ("F", PyVal.str "7")] "Page" =
      some (.int (1 + ((0 : Nat) : Int))) := by
  have h := C2_records cfgOneField (fun _ => true) (fun _ => [[[0]]]) (fun _ _ _ => "7")
    [[("Page", PyVal.int 1), ("F", PyVal.str "7")]] "a.pdf" rfl (by decide)
  have h0 := h.2 0 [("Page", PyVal.int 1), ("F", PyVal.str "7")] rfl
  exact ⟨h0.1 "F", h0.2 (by decide)⟩

/-- C3 counterexample: the claim as stated fails — a crop rectangle
`(0,0,10,10)` lies far outside the 2×2 page, yet extraction succeeds
(PIL zero-fills instead of raising) and the writer then writes the
output file. -/
theorem C3_counterexample :
    extract_data_from_pdf cfgBigBox (fun _ => true) (fun _ => [[[5, 5], [5, 5]]])
      (fun _ _ _ => "9") = .ok [[("Page", PyVal.int 1), ("F", PyVal.str "9")]] ∧
    save_to_excel [[("Page", PyVal.int 1), ("F", PyVal.str "9")]] "o.xlsx" (some cfgBigBox) =
      .ok (.table [[("Page", PyVal.int 1), ("F", PyVal.str "9")]] "o.xlsx") := by decide

/-- C3 (amended): cropping fails exactly when `right < left` or
`bottom < top` — a rectangle outside the page bounds is not an error and
is not clamped (out-of-page pixels read as black).  Consequently
extraction succeeds whenever the input exists and every field's box has
`left ≤ right` and `top ≤ bottom`, and conversely a successful
extraction implies every field that matched some rasterized page had
such a box. -/
theorem C3_geometry :
    (∀ (img : Image) (l t r b : Int),
       (∃ out, cropImage img l t r b = .ok out) ↔ (l ≤ r ∧ t ≤ b)) ∧
    (∀ (cfg : Config) (ex : String → Bool) (ras : String → List Image) (ocr : OCR)
       (p : String), cfg.input_pdf = some p → p ≠ "" → ex p = true →
       (∀ f ∈ cfg.fields, boxOk f) →
       ∃ recs, extract_data_from_pdf cfg ex ras ocr = .ok recs) ∧
    (∀ (cfg : Config) (ex : String → Bool) (ras : String → List Image) (ocr : OCR)
       (recs : List Dict) (p : String), cfg.input_pdf = some p →
       extract_data_from_pdf cfg ex ras ocr = .ok recs →
       ∀ f ∈ cfg.fields, ∀ n : Int, 1 ≤ n → n ≤ ((ras p).length : Int) →
         fieldMatches f n = true → boxOk f) :=
  ⟨cropImage_ok_iff, extract_total, extract_boxOk⟩

/-- C3 witness: the out-of-bounds crop succeeds, and the well-formed-box
extraction succeeds end to end on a concrete job. -/
theorem C3_witness :
    (∃ out, cropImage [[5, 5], [5, 5]] 0 0 10 10 = .ok out) ∧
    (∃ recs, extract_data_from_pdf cfgBigBox (fun _ => true)
      (fun _ => [[[5, 5], [5, 5]]]) (fun _ _ _ => "9") = .ok recs) := by
  refine ⟨(C3_geometry.1 [[5, 5], [5, 5]] 0 0 10 10).mpr (by decide), ?_⟩
  exact C3_geometry.2.1 cfgBigBox (fun _ => true) (fun _ => [[[5, 5], [5, 5]]])
    (fun _ _ _ => "9") "a.pdf" rfl (by decide) rfl (by decide)

/-- C4 counterexample: the claimed "fails iff not letters-then-digits"
is wrong in both directions — `"AAAA1"` consists of letters followed by
digits yet fails (openpyxl rejects columns beyond `"ZZZ"`), while
`" B2 "` is not letters-then-digits yet parses (the input is stripped
first). -/
theorem C4_counterexample :
    (lettersThenDigits "AAAA1" = true ∧
      _parse_cell_ref "AAAA1" = .error (.cellRefError "AAAA1")) ∧
    (lettersThenDigits " B2 " = false ∧ _parse_cell_ref " B2 " = .ok (2, 2)) := by
  decide

/-- C4 (amended): `"B2"` parses to (row 2, column 2), `"A2"` to
(row 2, column 1), `"AA10"` to (row 10, column 27); and parsing succeeds
iff the whitespace-stripped input consists of one-or-more letters
followed by one-or-more digits with the letter prefix at most three
letters long (column names beyond `"ZZZ"` are rejected). -/
theorem C4_parse :
    _parse_cell_ref "B2" = .ok (2, 2) ∧ _parse_cell_ref "A2" = .ok (2, 1) ∧
    _parse_cell_ref "AA10" = .ok (10, 27) ∧
    ∀ s : String, (∃ rc, _parse_cell_ref s = .ok rc) ↔
      (lettersThenDigits (pyStripStr s) = true ∧
       ((pyStrip s.data).takeWhile Char.isAlpha).length ≤ 3) :=
  ⟨by decide, by decide, by decide, parse_ok_iff⟩

/-- C5: the Image Normalizer maps every pixel strictly brighter than 150
to 255 and every other pixel to 0, so its output contains only the two
extreme brightness values, and it is idempotent. -/
theorem C5_normalizer :
    (∀ (img : Image) (row : List Nat) (p : Nat),
       row ∈ preprocess_image img → p ∈ row → p = 0 ∨ p = 255) ∧
    (∀ (img : Image) (i j p : Nat),
       (img.get? i).bind (fun row => row.get? j) = some p →
       ((preprocess_image img).get? i).bind (fun row => row.get? j) =
         some (if 150 < p then 255 else 0)) ∧
    (∀ img : Image, preprocess_image (preprocess_image img) = preprocess_image img) := by
  refine ⟨?_, ?_, ?_⟩
  · intro img row p hrow hp
    simp only [preprocess_image, List.mem_map] at hrow
    obtain ⟨row0, -, hrow0⟩ := hrow
    subst hrow0
    simp only [List.mem_map] at hp
    obtain ⟨p0, -, hp0⟩ := hp
    subst hp0
    by_cases h : 150 < p0
    · right; simp [h]
    · left; simp [h]
  · intro img i j p hp
    cases hgi : img.get? i with
    | none => rw [hgi] at hp; cases hp
    | some row =>
        rw [hgi, Option.some_bind] at hp
        have hpre : (preprocess_image img).get? i =
            some (row.map (fun q => if 150 < q then 255 else 0)) := by
          unfold preprocess_image
          rw [List.get?_map, hgi]
          rfl
        rw [hpre, Option.some_bind, List.get?_map, hp]
        rfl
  · intro img
    unfold preprocess_image
    rw [List.map_map]
    have hfun : ((fun row : List Nat => row.map (fun p => if 150 < p then 255 else 0)) ∘
        (fun row : List Nat => row.map (fun p => if 150 < p then 255 else 0))) =
        (fun row : List Nat => row.map (fun p => if 150 < p then 255 else 0)) := by
      funext row
      simp only [Function.comp_apply, List.map_map]
      have hth : ((fun p : Nat => if 150 < p then 255 else 0) ∘
          (fun p : Nat => if 150 < p then 255 else 0)) =
          (fun p : Nat => if 150 < p then 255 else 0) := by
        funext q
        simp only [Function.comp_apply]
        by_cases h : 150 < q <;> simp [h]
      rw [hth]
    rw [hfun]

/-- C5 witness: on the image `[[100, 200]]` the normalizer yields only
extreme values and applying it twice equals applying it once. -/
theorem C5_witness :
    ((0 : Nat) = 0 ∨ (0 : Nat) = 255) ∧
    preprocess_image (preprocess_image [[100, 200]]) = preprocess_image [[100, 200]] := by
  refine ⟨?_, C5_normalizer.2.2 [[100, 200]]⟩
  exact C5_normalizer.1 [[100, 200]] [0, 255] 0 (by decide) (by decide)

/-- C6 counterexample: the claim as stated fails — with `page_cell`
configured as `"A1"` the `"Page"` header would go to row 0,
`Worksheet.cell` raises `ValueError` and nothing is written. -/
theorem C6_counterexample :
    save_to_excel [[("Page", PyVal.int 1)]] "o.xlsx" (some cfgPageA1) =
      .error .rowColError := by decide

/-- C6 (amended): unless `omit_page_column` is set, the page-number
column is anchored at the parsed `page_cell` (defaulting to `"A2"`, i.e.
row 2 column 1, when the key is absent); whenever the writer succeeds
the anchor row is at least 2, the header `"Page"` is written one row
above the anchor, and the `Page` value of the record with zero-based
index `i` is written at `anchor_row + i` in the anchor column. -/
theorem C6_page_column (cfg : Config) (data : List Dict) (path : String)
    (ws : List CellWrite) (path' : String)
    (hsave : save_to_excel data path (some cfg) = .ok (.sheet ws path'))
    (homit : cfg.omit_page_column.getD false = false)
    (pr pc : Int) (hp : _parse_cell_ref (cfg.page_cell.getD "A2") = .ok (pr, pc)) :
    (cfg.page_cell = none → pr = 2 ∧ pc = 1) ∧
    2 ≤ pr ∧ (⟨pr - 1, pc, .str "Page"⟩ : CellWrite) ∈ ws ∧
    ∀ (i : Nat) (d : Dict), data.get? i = some d →
      ∀ v, dictGet d "Page" = some v → v ≠ .pynone →
      (⟨pr + (i : Int), pc, v⟩ : CellWrite) ∈ ws := by
  obtain ⟨-, hcoord⟩ := save_sheet_inv data path cfg ws path' hsave
  obtain ⟨-, pOpt, ws0, ws1, hh, hrec, hcase⟩ :=
    coordSave_ok_inv cfg data path ws path' hcoord
  rcases hcase with ⟨homit2, -, -⟩ | ⟨-, pr2, pc2, hp2, hpopt, hws0⟩
  · rw [homit] at homit2; cases homit2
  · rw [hp] at hp2
    injection hp2 with hp2
    injection hp2 with h1 h2
    subst h1
    subst h2
    subst hpopt
    have hdflt : cfg.page_cell = none → pr = 2 ∧ pc = 1 := by
      intro hnone
      rw [hnone] at hp
      have hA2 : _parse_cell_ref ((none : Option String).getD "A2") =
          .ok ((2 : Int), (1 : Int)) := by decide
      rw [hA2] at hp
      injection hp with hp
      injection hp with h1 h2
      exact ⟨h1.symm, h2.symm⟩
    obtain ⟨hge, -, hor⟩ := wsCell_ok_inv [] (pr - 1) pc (.str "Page") ws0 hws0
    have hmem0 : (⟨pr - 1, pc, PyVal.str "Page"⟩ : CellWrite) ∈ ws0 := by
      rcases hor with ⟨hpy, -⟩ | ⟨-, hws⟩
      · cases hpy
      · rw [hws]
        exact List.mem_append_right _ (List.mem_singleton.mpr rfl)
    refine ⟨hdflt, by omega, ?_, ?_⟩
    · exact writeRecords_grow cfg.fields _ 0 data ws1 ws hrec _
        (writeHeaders_grow cfg.fields ws0 ws1 hh _ hmem0)
    · intro i d hi v hv hvne
      have hm := writeRecords_page_mem cfg.fields pr pc 0 data ws1 ws hrec i d hi v hv hvne
      simpa using hm

/-- C6 witness: with one field at `"B2"`, `page_cell` absent and one
record, the default anchor is (2, 1), `"Page"` lands at row 1 column 1
and the record's page number at row 2 column 1. -/
theorem C6_witness :
    ((2 : Int) = 2 ∧ (1 : Int) = 1) ∧
    (⟨1, 1, PyVal.str "Page"⟩ : CellWrite) ∈ wsOne ∧
    (⟨2, 1, PyVal.int 1⟩ : CellWrite) ∈ wsOne := by
  have h := C6_page_column cfgOneCol dataOne "o.xlsx" wsOne "o.xlsx" (by decide) rfl
    2 1 (by decide)
  refine ⟨h.1 rfl, h.2.2.1, ?_⟩
  have hm := h.2.2.2 0 [("Page", PyVal.int 1), ("F", PyVal.str "10")] rfl
    (PyVal.int 1) rfl (by decide)
  simpa using hm

/-- C7 counterexample: the claim as stated fails — a field named
`"Page"` restricted to page 2 nevertheless has its name as a key of page
1's record, because every record carries the automatic `Page` key. -/
theorem C7_counterexample :
    extract_data_from_pdf cfgPageIdx2 (fun _ => true) (fun _ => [[[0]], [[0]]])
      (fun _ _ _ => "5") = .ok [[("Page", PyVal.int 1)], [("Page", PyVal.str "5")]] ∧
    "Page" ∈ dictKeys [("Page", PyVal.int 1)] := by decide

/-- C7 (amended): provided no two fields share a name and no field is
named `"Page"`, a field's name is a key of the record with zero-based
index `i` exactly when the field's `page_index` matches page `1 + i` —
so a field with a specific page number appears only in that page's
record, and a field with `page_index` `"all"` (or absent) appears in
every record. -/
theorem C7_page_filter (cfg : Config) (ex : String → Bool) (ras : String → List Image)
    (ocr : OCR) (recs : List Dict) (p : String) (hip : cfg.input_pdf = some p)
    (hok : extract_data_from_pdf cfg ex ras ocr = .ok recs)
    (hnodup : (cfg.fields.map Field.name).Nodup)
    (hnp : ∀ f ∈ cfg.fields, f.name ≠ "Page")
    (f : Field) (hf : f ∈ cfg.fields) :
    ∀ (i : Nat) (d : Dict), recs.get? i = some d →
      (f.name ∈ dictKeys d ↔ fieldMatches f (1 + (i : Int)) = true) := by
  intro i d hi
  have hspec := (extract_record_spec cfg ex ras ocr recs p hip hok).2 i d hi
  rw [hspec.1 f.name]
  constructor
  · rintro (hpage | ⟨f2, hf2, hm2, hn2⟩)
    · exact absurd hpage (hnp f hf)
    · have hfe : f2 = f := List.inj_on_of_nodup_map hnodup hf2 hf hn2
      rw [← hfe]
      exact hm2
  · intro hm
    exact Or.inr ⟨f, hf, hm, rfl⟩

/-- C7 witness: a field restricted to page 2 of a two-page document has
its name in record 2's keys but not in record 1's. -/
theorem C7_witness :
    ("F" ∈ dictKeys [("Page", PyVal.int 1), ("G", PyVal.str "5")] ↔
      fieldMatches { name := "F", box := (0, 0, 1, 1), page_index := some (.num 2) }
        (1 + ((0 : Nat) : Int)) = true) ∧
    ("F" ∈ dictKeys [("Page", PyVal.int 2), ("F", PyVal.str "5"), ("G", PyVal.str "5")] ↔
      fieldMatches { name := "F", box := (0, 0, 1, 1), page_index := some (.num 2) }
        (1 + ((1 : Nat) : Int)) = true) := by
  have h := C7_page_filter cfgMixed (fun _ => true) (fun _ => [[[0]], [[0]]])
    (fun _ _ _ => "5")
    [[("Page", PyVal.int 1), ("G", PyVal.str "5")],
     [("Page", PyVal.int 2), ("F", PyVal.str "5"), ("G", PyVal.str "5")]]
    "a.pdf" rfl (by decide) (by decide) (by decide)
    { name := "F", box := (0, 0, 1, 1), page_index := some (.num 2) } (by decide)
  exact ⟨h 0 _ rfl, h 1 _ rfl⟩

/-- C8: no error is caught anywhere in the pipeline — a configuration
loading error, an extraction error, or a missing `output_excel` key each
abort the run with exactly that error, and on full success the run's
result is exactly the writer's result, so an output file exists only
when every stage succeeded. -/
theorem C8_propagation (env : Option String) (loadCfg : String → Except Err Config)
    (ex : String → Bool) (ras : String → List Image) (ocr : OCR) :
    (∀ e, loadCfg (env.getD "config.json") = .error e →
       runMain env loadCfg ex ras ocr = .error e) ∧
    (∀ conf, loadCfg (env.getD "config.json") = .ok conf →
       (∀ e, extract_data_from_pdf conf ex ras ocr = .error e →
          runMain env loadCfg ex ras ocr = .error e) ∧
       (∀ recs, extract_data_from_pdf conf ex ras ocr = .ok recs →
          (conf.output_excel = none →
             runMain env loadCfg ex ras ocr = .error (.keyError "output_excel")) ∧
          (∀ outp, conf.output_excel = some outp →
             runMain env loadCfg ex ras ocr = save_to_excel recs outp (some conf)))) := by
  constructor
  · intro e he
    unfold runMain
    dsimp only
    rw [he]
  · intro conf hc
    refine ⟨?_, ?_⟩
    · intro e he
      unfold runMain
      dsimp only
      rw [hc]
      dsimp only
      rw [he]
    · intro recs hr
      refine ⟨?_, ?_⟩
      · intro hnone
        unfold runMain
        dsimp only
        rw [hc]
        dsimp only
        rw [hr]
        dsimp only
        rw [hnone]
      · intro outp houtp
        unfold runMain
        dsimp only
        rw [hc]
        dsimp only
        rw [hr]
        dsimp only
        rw [houtp]

/-- C8 witness: a failing configuration loader aborts the run with its
own error. -/
theorem C8_witness :
    runMain none (fun _ => .error (.configNotFound "config.json")) (fun _ => true)
      (fun _ => []) (fun _ _ _ => "") = .error (.configNotFound "config.json") :=
  (C8_propagation none (fun _ => .error (.configNotFound "config.json")) (fun _ => true)
    (fun _ => []) (fun _ _ _ => "")).1 (.configNotFound "config.json") rfl

/-- C9: a field with no `ocr_whitelist` key is OCRed with the default
whitelist `"0123456789."` appended to the tesseract configuration,
while a present-but-empty whitelist yields the bare `"--psm 7"`
configuration (no character restriction); a field with no `lang` key is
recognized with language `"eng"`. -/
theorem C9_defaults (name : String) (box : Int × Int × Int × Int)
    (pidx : Option PageIndex) (w lng cell : Option String) :
    tesseractConfig (Field.mk name box pidx none lng cell) =
      "--psm 7 -c tessedit_char_whitelist=0123456789." ∧
    tesseractConfig (Field.mk name box pidx (some "") lng cell) = "--psm 7" ∧
    fieldLang (Field.mk name box pidx w none cell) = "eng" := by
  refine ⟨?_, ?_, rfl⟩
  · unfold tesseractConfig fieldWhitelist
    dsimp only
    rw [if_pos (by decide)]
    decide
  · unfold tesseractConfig fieldWhitelist
    dsimp only
    rw [if_neg (by decide)]

/-- C10: in coordinate-addressed mode the writer's output is unchanged
when the fields lacking a truthy `cell` are removed — no header and no
value of such a field is ever written — even though extraction is
entirely independent of the `cell` key, so those fields' values are
still present in the Page Records. -/
theorem C10_unanchored_omitted (cfg : Config) (data : List Dict) (path : String)
    (hany : cfg.fields.any fieldHasCell = true) :
    save_to_excel data path (some { cfg with fields := cfg.fields.filter fieldHasCell }) =
      save_to_excel data path (some cfg) ∧
    ∀ (ex : String → Bool) (ras : String → List Image) (ocr : OCR),
      extract_data_from_pdf { cfg with fields := cfg.fields.map eraseCell } ex ras ocr =
        extract_data_from_pdf cfg ex ras ocr := by
  constructor
  · unfold save_to_excel
    dsimp only
    have hany2 : (cfg.fields.filter fieldHasCell).any fieldHasCell = true := by
      simp only [List.any_filter]
      simpa using hany
    have hne : cfg.fields.isEmpty = false := by
      cases hl : cfg.fields
      · rw [hl] at hany; cases hany
      · rfl
    have hne2 : (cfg.fields.filter fieldHasCell).isEmpty = false := by
      cases hl : cfg.fields.filter fieldHasCell
      · rw [hl] at hany2; cases hany2
      · rfl
    rw [hany, hne, hany2, hne2]
    exact coordSave_filter cfg data path
  · intro ex ras ocr
    exact extract_eraseCell cfg ex ras ocr

/-- C10 witness: with one anchored and one unanchored field, dropping
the unanchored field leaves the saved output unchanged. -/
theorem C10_witness :
    save_to_excel [[("Page", PyVal.int 1), ("F", PyVal.str "x"), ("H", PyVal.str "y")]]
      "o.xlsx" (some { cfgHalfCells with
        fields := cfgHalfCells.fields.filter fieldHasCell }) =
    save_to_excel [[("Page", PyVal.int 1), ("F", PyVal.str "x"), ("H", PyVal.str "y")]]
      "o.xlsx" (some cfgHalfCells) :=
  (C10_unanchored_omitted cfgHalfCells
    [[("Page", PyVal.int 1), ("F", PyVal.str "x"), ("H", PyVal.str "y")]]
    "o.xlsx" (by decide)).1

end OcrToExcel
